import Mathlib

/-!
Verification development for the zao-bot attendance tracker core:
business-day calendar (`zao_bot/time_utils.py`), session and achievement
storage (`zao_bot/storage/sqlalchemy_storage.py`) and the achievement
engine (`zao_bot/achievements.py`), shallowly embedded over an explicit
storage state.  Timestamps are modelled at one-second resolution; SQL
tables are lists of rows and the uniqueness indexes become pairwise
invariants on those lists.
-/

namespace ZaoBot

/-! ## Calendar: proleptic Gregorian dates as in Python `datetime.date` -/

def isLeapYear (y : Nat) : Bool :=
  (y % 4 == 0 && y % 100 != 0) || y % 400 == 0

def daysInMonth (y m : Nat) : Nat :=
  if m == 2 then (if isLeapYear y then 29 else 28)
  else if m == 4 || m == 6 || m == 9 || m == 11 then 30
  else 31

structure Date where
  year : Nat
  month : Nat
  day : Nat
deriving DecidableEq, Repr

/-- Days in all years strictly before year `y` (Python `_days_before_year`). -/
def daysBeforeYear (y : Nat) : Nat :=
  365 * (y - 1) + (y - 1) / 4 + (y - 1) / 400 - (y - 1) / 100

/-- Days in the months of year `y` strictly before month `m`. -/
def daysBeforeMonth (y m : Nat) : Nat :=
  (List.range (m - 1)).foldl (fun a i => a + daysInMonth y (i + 1)) 0

/-- Python `date.toordinal()`: 0001-01-01 has ordinal 1. -/
def Date.toOrdinal (d : Date) : Nat :=
  daysBeforeYear d.year + daysBeforeMonth d.year d.month + d.day

/-- Python `date.weekday()`: Monday = 0 … Sunday = 6. -/
def Date.weekday (d : Date) : Nat :=
  (d.toOrdinal + 6) % 7

/-- The previous calendar date (`d - timedelta(days=1)` on a valid date). -/
def Date.pred (d : Date) : Date :=
  if d.day > 1 then ⟨d.year, d.month, d.day - 1⟩
  else if d.month > 1 then ⟨d.year, d.month - 1, daysInMonth d.year (d.month - 1)⟩
  else ⟨d.year - 1, 12, 31⟩

/-- A calendar-valid date in Python's supported range. -/
def Date.Valid (d : Date) : Prop :=
  1 ≤ d.year ∧ 1 ≤ d.month ∧ d.month ≤ 12 ∧ 1 ≤ d.day ∧ d.day ≤ daysInMonth d.year d.month

instance (d : Date) : Decidable d.Valid := by
  unfold Date.Valid; infer_instance

/-- Left-pad the decimal representation of `n` with zeros to width `w`. -/
def padNum (w n : Nat) : String :=
  let s := toString n
  ⟨List.replicate (w - s.length) '0'⟩ ++ s

/-- Python `date.isoformat()`: `YYYY-MM-DD`. -/
def Date.iso (d : Date) : String :=
  padNum 4 d.year ++ "-" ++ padNum 2 d.month ++ "-" ++ padNum 2 d.day

def digitVal (c : Char) : Option Nat :=
  if c.isDigit then some (c.toNat - 48) else none

/-- Python `date.fromisoformat` on the dashed `YYYY-MM-DD` form:
accepts exactly a 4-digit year, 2-digit month and 2-digit day forming a
calendar-valid date, and fails on anything else. -/
def parseIsoDate (s : String) : Option Date :=
  match s.data with
  | [y1, y2, y3, y4, s1, m1, m2, s2, d1, d2] =>
    if s1 == '-' && s2 == '-' then
      match digitVal y1, digitVal y2, digitVal y3, digitVal y4,
            digitVal m1, digitVal m2, digitVal d1, digitVal d2 with
      | some a, some b, some c, some e, some f, some g, some h, some i =>
        let y := ((a * 10 + b) * 10 + c) * 10 + e
        let m := f * 10 + g
        let d := h * 10 + i
        if (Date.mk y m d).Valid then some ⟨y, m, d⟩ else none
      | _, _, _, _, _, _, _, _ => none
    else none
  | _ => none

/-! ## Timestamps: timezone-aware `datetime` at one-second resolution -/

structure DateTime where
  date : Date
  hour : Nat
  minute : Nat
  second : Nat
deriving DecidableEq, Repr

def DateTime.timeOfDaySec (t : DateTime) : Nat :=
  t.hour * 3600 + t.minute * 60 + t.second

/-- Absolute second count; `datetime` comparison and subtraction agree
with comparison and subtraction of these values. -/
def DateTime.toSec (t : DateTime) : Nat :=
  t.date.toOrdinal * 86400 + t.timeOfDaySec

/-! ## `zao_bot/time_utils.py` -/

/-- `business_day_range(now, cutoff_hour)`, start component: the cutoff
instant `now.replace(hour=cutoff_hour, minute=0, second=0)`, pushed back
one day when `now` lies strictly before it. -/
def businessDayRangeStart (now : DateTime) (cutoffHour : Nat) : DateTime :=
  let cutoff : DateTime := ⟨now.date, cutoffHour, 0, 0⟩
  if now.toSec < cutoff.toSec then ⟨cutoff.date.pred, cutoffHour, 0, 0⟩ else cutoff

/-- `business_day_key(dt, cutoff_hour)`: ISO date of the business-day start. -/
def businessDayKey (dt : DateTime) (cutoffHour : Nat) : String :=
  (businessDayRangeStart dt cutoffHour).date.iso

/-! ## Storage rows (`sqlalchemy_storage.init_db` schema) -/

structure SessionRow where
  id : Nat
  chatId : Int
  userId : Int
  sessionDay : Option String
  checkIn : DateTime
  checkOut : Option DateTime
deriving DecidableEq, Repr

structure DailyEarliestRow where
  chatId : Int
  day : String
  userId : Int
  sessionId : Nat
  checkIn : DateTime
  createdAt : DateTime
deriving DecidableEq, Repr

structure StreakRow where
  chatId : Int
  userId : Int
  key : String
  lastDay : String
  streak : Int
  updatedAt : DateTime
deriving DecidableEq, Repr

structure AchievementEventRow where
  id : Nat
  chatId : Int
  userId : Int
  key : String
  day : Option String
  sessionId : Option Nat
  createdAt : DateTime
deriving DecidableEq, Repr

structure AchievementStatRow where
  chatId : Int
  userId : Int
  key : String
  count : Int
  lastAwardedAt : DateTime
deriving DecidableEq, Repr

structure UserRow where
  userId : Int
  username : Option String
  firstName : Option String
  lastName : Option String
  updatedAt : DateTime
deriving DecidableEq, Repr

structure ChatRow where
  chatId : Int
  title : Option String
  chatType : String
  updatedAt : DateTime
deriving DecidableEq, Repr

/-- Logical storage state: each SQL table as a list of rows, plus the
autoincrement counters for the two serial primary keys. -/
structure DB where
  users : List UserRow
  chats : List ChatRow
  sessions : List SessionRow
  dailyEarliest : List DailyEarliestRow
  streaks : List StreakRow
  achievementEvents : List AchievementEventRow
  achievementStats : List AchievementStatRow
  nextSessionId : Nat
  nextEventId : Nat
deriving DecidableEq, Repr

/-- Unique index `idx_sessions_user_day` on `(chat_id, user_id, session_day)`;
rows with a SQL NULL `session_day` never conflict. -/
def sessionKeyClash (a b : SessionRow) : Prop :=
  a.chatId = b.chatId ∧ a.userId = b.userId ∧ a.sessionDay = b.sessionDay ∧ a.sessionDay.isSome

instance (a b : SessionRow) : Decidable (sessionKeyClash a b) := by
  unfold sessionKeyClash; infer_instance

/-- The partial unique indexes `idx_ae_daily_unique`, `idx_ae_streak7_unique`
and `idx_ae_session_unique` on `achievement_events`; a SQL NULL in an indexed
column exempts the row from the constraint. -/
def aeClash (a b : AchievementEventRow) : Prop :=
  (a.key = "daily_earliest" ∧ b.key = "daily_earliest" ∧
     a.chatId = b.chatId ∧ a.day = b.day ∧ a.day.isSome) ∨
  (a.key = "streak_earliest_7" ∧ b.key = "streak_earliest_7" ∧
     a.chatId = b.chatId ∧ a.userId = b.userId ∧ a.day = b.day ∧ a.day.isSome) ∨
  ((a.key = "ontime_8h" ∨ a.key = "longday_12h") ∧ a.key = b.key ∧
     a.chatId = b.chatId ∧ a.userId = b.userId ∧
     a.sessionId = b.sessionId ∧ a.sessionId.isSome)

instance (a b : AchievementEventRow) : Decidable (aeClash a b) := by
  unfold aeClash; infer_instance

/-- Whole-state invariant: the primary keys and unique indexes declared by
`init_db`, plus the autoincrement counters dominating the stored ids. -/
def DB.Inv (db : DB) : Prop :=
  db.users.Pairwise (fun a b => a.userId ≠ b.userId) ∧
  db.chats.Pairwise (fun a b => a.chatId ≠ b.chatId) ∧
  db.sessions.Pairwise (fun a b => a.id ≠ b.id ∧ ¬ sessionKeyClash a b) ∧
  (∀ s ∈ db.sessions, s.id < db.nextSessionId) ∧
  db.dailyEarliest.Pairwise (fun a b => ¬(a.chatId = b.chatId ∧ a.day = b.day)) ∧
  db.streaks.Pairwise
    (fun a b => ¬(a.chatId = b.chatId ∧ a.userId = b.userId ∧ a.key = b.key)) ∧
  db.achievementEvents.Pairwise (fun a b => a.id ≠ b.id ∧ ¬ aeClash a b) ∧
  (∀ e ∈ db.achievementEvents, e.id < db.nextEventId) ∧
  db.achievementStats.Pairwise
    (fun a b => ¬(a.chatId = b.chatId ∧ a.userId = b.userId ∧ a.key = b.key))

instance (db : DB) : Decidable db.Inv := by
  unfold DB.Inv; infer_instance

/-! ## Session operations (`sqlalchemy_storage.py`) -/

structure OpenSession where
  sessionId : Nat
  checkIn : DateTime
deriving DecidableEq, Repr

/-- `ORDER BY id DESC LIMIT 1` over a list of session rows. -/
def maxByIdRow (l : List SessionRow) : Option SessionRow :=
  l.foldl
    (fun acc r =>
      match acc with
      | none => some r
      | some b => if b.id < r.id then some r else some b)
    none

/-- Row filter of `get_open_session`: open session, optionally restricted
to one business day (`:day IS NULL OR session_day = :day`). -/
def openSessFilter (chatId userId : Int) (day : Option String) (s : SessionRow) : Bool :=
  s.chatId == chatId && s.userId == userId && s.checkOut == none &&
    (day == none || s.sessionDay == day)

/-- `get_open_session(chat_id, user_id, day)`. -/
def getOpenSession (db : DB) (chatId userId : Int) (day : Option String) : Option OpenSession :=
  match maxByIdRow (db.sessions.filter (openSessFilter chatId userId day)) with
  | none => none
  | some r => some ⟨r.id, r.checkIn⟩

/-- `check_in(chat_id, user_id, ts)`: insert a session for the business day
of `ts`; an `idx_sessions_user_day` violation rolls the transaction back and
returns `False`. -/
def checkIn (db : DB) (chatId userId : Int) (ts : DateTime) : DB × Bool :=
  let day := businessDayKey ts 4
  let row : SessionRow := ⟨db.nextSessionId, chatId, userId, some day, ts, none⟩
  if db.sessions.any (fun s => sessionKeyClash s row) then (db, false)
  else
    ({ db with
        sessions := db.sessions ++ [row]
        nextSessionId := db.nextSessionId + 1 }, true)

/-- `check_out(chat_id, user_id, ts)`: close the open session of the current
business day, clamping the check-out instant to the check-in instant. -/
def checkOut (db : DB) (chatId userId : Int) (ts : DateTime) :
    DB × (Bool × Option Int × Option DateTime × Option Nat) :=
  let day := businessDayKey ts 4
  match getOpenSession db chatId userId (some day) with
  | none => (db, (false, none, none, none))
  | some osess =>
    let tsC := if ts.toSec < osess.checkIn.toSec then osess.checkIn else ts
    let db1 :=
      { db with
          sessions := db.sessions.map
            (fun s => if s.id == osess.sessionId then { s with checkOut := some tsC } else s) }
    (db1, (true, some ((tsC.toSec : Int) - (osess.checkIn.toSec : Int)),
      some osess.checkIn, some osess.sessionId))

/-- `today_checkin_position(chat_id, session_id, check_in, day)`. -/
def todayCheckinPosition (db : DB) (chatId : Int) (sessionId : Nat)
    (checkIn : DateTime) (day : String) : Int :=
  let n := db.sessions.countP
    (fun s => s.chatId == chatId && s.sessionDay == some day &&
      (s.checkIn.toSec < checkIn.toSec ||
        (s.checkIn == checkIn && s.id ≤ sessionId)))
  if (n : Int) > 0 then (n : Int) else 1

/-! ## Achievement storage operations -/

/-- `set_daily_earliest`: first insert for `(chat_id, day)` wins; a primary-key
violation rolls back and returns `False`. -/
def setDailyEarliest (db : DB) (chatId : Int) (day : String) (userId : Int)
    (sessionId : Nat) (checkIn createdAt : DateTime) : DB × Bool :=
  if db.dailyEarliest.any (fun r => r.chatId == chatId && r.day == day) then (db, false)
  else
    ({ db with
        dailyEarliest := db.dailyEarliest ++ [⟨chatId, day, userId, sessionId, checkIn, createdAt⟩] },
      true)

/-- The streak row for a `(chat_id, user_id, key)` primary key, if present. -/
def lookupStreak (db : DB) (chatId userId : Int) (key : String) : Option StreakRow :=
  db.streaks.find? (fun r => r.chatId == chatId && r.userId == userId && r.key == key)

/-- The gap test of `update_streak`:
`(date.fromisoformat(day) - date.fromisoformat(last_day)).days == 1`, with a
parse failure routed to the reset branch by the `except` clause. -/
def streakGapIsOne (day lastDay : String) : Bool :=
  match parseIsoDate day, parseIsoDate lastDay with
  | some d, some l => (d.toOrdinal : Int) - (l.toOrdinal : Int) == 1
  | _, _ => false

/-- `update_streak(chat_id, user_id, key, day, created_at)`. -/
def updateStreak (db : DB) (chatId userId : Int) (key : String) (day : String)
    (createdAt : DateTime) : DB × Int :=
  match lookupStreak db chatId userId key with
  | some row =>
    let newStreak : Int := if streakGapIsOne day row.lastDay then row.streak + 1 else 1
    ({ db with
        streaks := db.streaks.map
          (fun r =>
            if r.chatId == chatId && r.userId == userId && r.key == key then
              { r with lastDay := day, streak := newStreak, updatedAt := createdAt }
            else r) },
      newStreak)
  | none =>
    ({ db with streaks := db.streaks ++ [⟨chatId, userId, key, day, 1, createdAt⟩] }, 1)

/-- `get_achievement_count(chat_id, user_id, key)`. -/
def getAchievementCount (db : DB) (chatId userId : Int) (key : String) : Int :=
  match db.achievementStats.find?
      (fun r => r.chatId == chatId && r.userId == userId && r.key == key) with
  | some r => r.count
  | none => 0

/-- `award_achievement`: inside one transaction, append the ledger event and
upsert the denormalized stat; a partial-unique-index violation rolls back both
and returns `False`. -/
def awardAchievement (db : DB) (chatId userId : Int) (key : String)
    (createdAt : DateTime) (day : Option String) (sessionId : Option Nat) : DB × Bool :=
  let ev : AchievementEventRow := ⟨db.nextEventId, chatId, userId, key, day, sessionId, createdAt⟩
  if db.achievementEvents.any (fun e => aeClash e ev) then (db, false)
  else
    let stats :=
      if db.achievementStats.any
          (fun r => r.chatId == chatId && r.userId == userId && r.key == key) then
        db.achievementStats.map
          (fun r =>
            if r.chatId == chatId && r.userId == userId && r.key == key then
              { r with count := r.count + 1, lastAwardedAt := createdAt }
            else r)
      else db.achievementStats ++ [⟨chatId, userId, key, 1, createdAt⟩]
    ({ db with
        achievementEvents := db.achievementEvents ++ [ev]
        achievementStats := stats
        nextEventId := db.nextEventId + 1 }, true)

/-! ## Leaderboard (`leaderboard`, sqlite/postgresql branches share the
filter, grouping and ordering semantics formalised here) -/

def trimChars (l : List Char) : List Char :=
  ((l.dropWhile Char.isWhitespace).reverse.dropWhile Char.isWhitespace).reverse

/-- `_display_name(name, user_id)`. -/
def displayName (name : Option String) (userId : Int) : String :=
  let raw :=
    match name with
    | some s => if s == "" then toString userId else s
    | none => toString userId
  let nm : String := ⟨trimChars raw.data⟩
  if nm != "" && !(nm.data.any (· == ' ')) && !(nm.data.all Char.isDigit) &&
      !(nm.data.head? == some '@') then
    "@" ++ nm
  else nm

/-- `COALESCE(u.username, (u.first_name || ' ' || COALESCE(u.last_name,'')))`
with SQL NULL propagation through `||`. -/
def sqliteName (u : UserRow) : Option String :=
  match u.username with
  | some un => some un
  | none =>
    match u.firstName with
    | some f => some (f ++ " " ++ u.lastName.getD "")
    | none => none

/-- `COALESCE(u.username, CONCAT_WS(' ', u.first_name, u.last_name))`;
`CONCAT_WS` skips NULL arguments and never returns NULL. -/
def pgName (u : UserRow) : Option String :=
  match u.username with
  | some un => some un
  | none =>
    match u.firstName, u.lastName with
    | some f, some l => some (f ++ " " ++ l)
    | some f, none => some f
    | none, some l => some l
    | none, none => some ""

def lookupUser (db : DB) (uid : Int) : Option UserRow :=
  db.users.find? (fun u => u.userId == uid)

/-- Display name of a (joined) user id under the given SQL name column. -/
def userDisplay (db : DB) (nameOf : UserRow → Option String) (uid : Int) : String :=
  match lookupUser db uid with
  | some u => displayName (nameOf u) uid
  | none => displayName none uid

/-- Seconds credited to one session row:
`COALESCE(s.check_out, :now) - s.check_in`. -/
def sessionSeconds (now : DateTime) (s : SessionRow) : Int :=
  match s.checkOut with
  | some co => (co.toSec : Int) - (s.checkIn.toSec : Int)
  | none => (now.toSec : Int) - (s.checkIn.toSec : Int)

/-- The session rows the `leaderboard` query ranges over: the chat's
sessions joined to `users`, restricted to the current business day in
`today` mode and to completed sessions otherwise. -/
def leaderboardRows (db : DB) (chatId : Int) (mode : String) (now : DateTime) :
    List SessionRow :=
  let base := db.sessions.filter
    (fun s => s.chatId == chatId && (lookupUser db s.userId).isSome)
  if mode == "today" then
    base.filter (fun s => s.sessionDay == some (businessDayKey now 4))
  else
    base.filter (fun s => s.checkOut.isSome)

/-- First occurrence of each value, in order (`GROUP BY` group keys). -/
def dedupKeep (l : List Int) : List Int :=
  l.foldl (fun acc x => if acc.contains x then acc else acc ++ [x]) []

/-- `ORDER BY seconds DESC` comparison. -/
def lbRel (a b : Int × String × Int) : Prop :=
  b.2.2 ≤ a.2.2

instance : DecidableRel lbRel := fun a b => by unfold lbRel; infer_instance

instance : IsTotal (Int × String × Int) lbRel :=
  ⟨fun a b => le_total b.2.2 a.2.2⟩

instance : IsTrans (Int × String × Int) lbRel :=
  ⟨fun _ _ _ h1 h2 => le_trans h2 h1⟩

/-- `leaderboard(chat_id, mode, now)`: per-user second sums of the selected
session rows, sorted by seconds descending. -/
def leaderboard (db : DB) (chatId : Int) (mode : String) (now : DateTime) :
    List (Int × String × Int) :=
  let rows := leaderboardRows db chatId mode now
  let entries := (dedupKeep (rows.map (·.userId))).map
    (fun uid =>
      (uid, userDisplay db sqliteName uid,
        ((rows.filter (fun s => s.userId == uid)).map (sessionSeconds now)).sum))
  entries.insertionSort lbRel

/-! ## Global streak ranking (`streak_rank_global`, both engine branches) -/

/-- The ranking key of a global streak entry: user id and streak value. -/
def rankProj (t : Int × String × Int × Option Int × Option String) : Int × Int :=
  (t.1, t.2.2.1)

/-- `ORDER BY streak DESC, user_id ASC` on the projected key. -/
def rankKey (p q : Int × Int) : Prop :=
  q.2 < p.2 ∨ (p.2 = q.2 ∧ p.1 ≤ q.1)

instance : DecidableRel rankKey := fun p q => by unfold rankKey; infer_instance

def rankRel (a b : Int × String × Int × Option Int × Option String) : Prop :=
  rankKey (rankProj a) (rankProj b)

instance : DecidableRel rankRel := fun a b => by unfold rankRel; infer_instance

/-- Users appearing in a `key`-filtered streak row and in `users` (the
`JOIN users` of both branches, rendered at the group-key level since the
join condition only mentions `user_id`). -/
def globalStreakUids (db : DB) (key : String) : List Int :=
  (dedupKeep ((db.streaks.filter (fun st => st.key == key)).map (·.userId))).filter
    (fun uid => (lookupUser db uid).isSome)

def streakRowsOf (db : DB) (key : String) (uid : Int) : List StreakRow :=
  (db.streaks.filter (fun st => st.key == key)).filter (fun st => st.userId == uid)

/-- `MAX(st.streak)` over a group (SQL aggregate over a non-empty group). -/
def intListMax : List Int → Option Int
  | [] => none
  | x :: xs => some (xs.foldl max x)

/-- `ROW_NUMBER() OVER (PARTITION BY user_id ORDER BY streak DESC, chat_id
ASC)` winner: the row maximal for (streak descending, chat_id ascending). -/
def bestStreakRow : List StreakRow → Option StreakRow
  | [] => none
  | x :: xs =>
    some (xs.foldl
      (fun b r =>
        if r.streak > b.streak || (r.streak == b.streak && r.chatId < b.chatId) then r else b)
      x)

/-- `streak_rank_global` on the embedded (sqlite) engine: best-effort
`MAX(streak)` per user, no chat id or title. -/
def streakRankGlobalSqlite (db : DB) (key : String) (lim : Nat) :
    List (Int × String × Int × Option Int × Option String) :=
  let entries := (globalStreakUids db key).map
    (fun uid =>
      (uid, userDisplay db sqliteName uid,
        (intListMax ((streakRowsOf db key uid).map (·.streak))).getD 0,
        (none : Option Int), (none : Option String)))
  (entries.insertionSort rankRel).take lim

/-- `streak_rank_global` on the networked (postgresql) engine: the ranked
window picks each user's best row, joined to `chats` for the title. -/
def streakRankGlobalPg (db : DB) (key : String) (lim : Nat) :
    List (Int × String × Int × Option Int × Option String) :=
  let entries := (globalStreakUids db key).map
    (fun uid =>
      match bestStreakRow (streakRowsOf db key uid) with
      | some b =>
        (uid, userDisplay db pgName uid, b.streak, some b.chatId,
          ((db.chats.find? (fun c => c.chatId == b.chatId)).bind (·.title)))
      | none => (uid, userDisplay db pgName uid, 0, none, none))
  (entries.insertionSort rankRel).take lim

/-! ## Achievement engine (`zao_bot/achievements.py`) -/

structure AchievementResult where
  unlocked : List String
  earliestStreak : Option Int
deriving DecidableEq, Repr

/-- `on_check_in(storage, chat_id, user_id, session_id, check_in_ts, now_ts)`. -/
def onCheckIn (db : DB) (chatId userId : Int) (sessionId : Nat)
    (checkInTs nowTs : DateTime) : DB × AchievementResult :=
  let day := businessDayKey checkInTs 4
  let r1 := setDailyEarliest db chatId day userId sessionId checkInTs nowTs
  let db1 := r1.1
  if r1.2 then
    let r2 := awardAchievement db1 chatId userId "daily_earliest" nowTs (some day) none
    let unlocked1 := if r2.2 then ["daily_earliest"] else []
    let r3 := updateStreak r2.1 chatId userId "earliest" day nowTs
    let streak := r3.2
    if streak > 0 && streak % 7 == 0 then
      let r4 := awardAchievement r3.1 chatId userId "streak_earliest_7" nowTs (some day) none
      (r4.1, ⟨unlocked1 ++ (if r4.2 then ["streak_earliest_7"] else []), some streak⟩)
    else (r3.1, ⟨unlocked1, some streak⟩)
  else (db1, ⟨[], none⟩)

/-- `is_weekday` of `on_check_out`: Monday..Friday of the parsed business
day, defaulting to `True` when the day string does not parse. -/
def isWeekdayOf (day : String) : Bool :=
  match parseIsoDate day with
  | some d => decide (d.weekday ≤ 4)
  | none => true

/-- `on_check_out(storage, chat_id, user_id, session_id, check_in_ts,
duration, now_ts)`; `duration` in seconds. -/
def onCheckOut (db : DB) (chatId userId : Int) (sessionId : Nat)
    (checkInTs : DateTime) (duration : Int) (nowTs : DateTime) : DB × AchievementResult :=
  let day := businessDayKey checkInTs 4
  let isWeekday := isWeekdayOf day
  let r1 :=
    if isWeekday && decide ((duration - 28800).natAbs ≤ 60) then
      if getAchievementCount db chatId userId "ontime_8h" ≤ 0 then
        let ra := awardAchievement db chatId userId "ontime_8h" nowTs (some day) (some sessionId)
        (ra.1, if ra.2 then ["ontime_8h"] else [])
      else (db, ([] : List String))
    else (db, ([] : List String))
  let r2 :=
    if isWeekday && decide (duration > 43200) then
      let ra := awardAchievement r1.1 chatId userId "longday_12h" nowTs (some day) (some sessionId)
      (ra.1, if ra.2 then ["longday_12h"] else [])
    else (r1.1, ([] : List String))
  (r2.1, ⟨r1.2 ++ r2.2, none⟩)

/-! ## Infrastructure lemmas -/

lemma foldl_dedup_mem (l : List Int) (acc : List Int) (y : Int) :
    y ∈ l.foldl (fun a x => if a.contains x then a else a ++ [x]) acc ↔ y ∈ acc ∨ y ∈ l := by
  induction l generalizing acc with
  | nil => simp
  | cons x xs ih =>
    simp only [List.foldl_cons, ih, List.mem_cons]
    by_cases hc : acc.contains x
    · simp only [if_pos hc]
      have hmem : x ∈ acc := by simpa using hc
      constructor
      · rintro (h | h)
        · exact Or.inl h
        · exact Or.inr (Or.inr h)
      · rintro (h | h | h)
        · exact Or.inl h
        · exact Or.inl (h ▸ hmem)
        · exact Or.inr h
    · simp only [if_neg hc, List.mem_append, List.mem_singleton]
      tauto

lemma mem_dedupKeep (l : List Int) (y : Int) : y ∈ dedupKeep l ↔ y ∈ l := by
  unfold dedupKeep
  rw [foldl_dedup_mem]
  simp

lemma countP_split {α : Type} (p q : α → Bool) (l : List α)
    (hpq : ∀ a, q a = true → p a = true) :
    l.countP p = l.countP q + l.countP (fun a => p a && !q a) := by
  induction l with
  | nil => simp
  | cons x xs ih =>
    simp only [List.countP_cons, ih]
    by_cases hq : q x = true
    · have hp := hpq x hq
      simp [hp, hq]
      omega
    · simp only [Bool.not_eq_true] at hq
      by_cases hp : p x = true
      · simp [hp, hq]
        omega
      · simp only [Bool.not_eq_true] at hp
        simp [hp, hq]

lemma filter_eq_singleton {α : Type} [DecidableEq α] {R : α → α → Prop} {l : List α}
    (hpw : l.Pairwise R) (p : α → Bool) {s : α} (hs : s ∈ l.filter p)
    (hclash : ∀ a ∈ l.filter p, ∀ b ∈ l.filter p, ¬ R a b) :
    l.filter p = [s] := by
  have hsub : (l.filter p).Pairwise R := hpw.sublist (List.filter_sublist l)
  match hfp : l.filter p with
  | [] => rw [hfp] at hs; simp at hs
  | [x] =>
    rw [hfp] at hs
    simp only [List.mem_singleton] at hs
    rw [hs]
  | x :: y :: t =>
    rw [hfp] at hsub
    have hx : x ∈ l.filter p := by
      rw [hfp]
      exact List.mem_cons_self x (y :: t)
    have hy : y ∈ l.filter p := by
      rw [hfp]
      exact List.mem_cons_of_mem x (List.mem_cons_self y t)
    have hR : R x y := (List.pairwise_cons.mp hsub).1 y (List.mem_cons_self y t)
    exact absurd hR (hclash x hx y hy)

/-! ## Claim C3: business-day key -/

/-- C3: `business_day_key` returns the timestamp's own calendar date (as
`YYYY-MM-DD`) when the wall-clock time-of-day is at or after
`cutoff_hour:00:00`, and the previous calendar date when it is strictly
before; in particular a 03:30 check-in under the default 04:00 cutoff
resolves to the previous calendar date.  As a total function of the
embedding it has no failure modes. -/
theorem claim3_business_day_key (dt : DateTime) (cutoffHour : Nat) :
    businessDayKey dt cutoffHour =
      (if dt.timeOfDaySec < cutoffHour * 3600 then dt.date.pred.iso else dt.date.iso) ∧
    businessDayKey ⟨⟨2025, 1, 2⟩, 3, 30, 0⟩ 4 = "2025-01-01" := by
  refine ⟨?_, by decide⟩
  unfold businessDayKey businessDayRangeStart
  have hiff : dt.toSec < (DateTime.mk dt.date cutoffHour 0 0).toSec ↔
      dt.timeOfDaySec < cutoffHour * 3600 := by
    simp only [DateTime.toSec, DateTime.timeOfDaySec]
    omega
  by_cases h : dt.timeOfDaySec < cutoffHour * 3600
  · rw [if_pos (hiff.mpr h), if_pos h]
  · rw [if_neg (fun hl => h (hiff.mp hl)), if_neg h]

/-! ## Claim C4: expected conflicts are boolean results with no mutation -/

/-- C4: a duplicate check-in, duplicate daily-earliest insert, or
double-award of an achievement is reported as a `false` result of a total
function (never an exception), and on that result the storage state is
unchanged — in particular a failing `award_achievement` applies neither the
ledger insert nor the stat upsert. -/
theorem claim4_conflict_rollback (db : DB) (c u : Int) (ts : DateTime)
    (day : String) (sid : Nat) (ci ca : DateTime) (key : String)
    (d : Option String) (sidOpt : Option Nat) :
    ((checkIn db c u ts).2 = false → (checkIn db c u ts).1 = db) ∧
    ((setDailyEarliest db c day u sid ci ca).2 = false →
      (setDailyEarliest db c day u sid ci ca).1 = db) ∧
    ((awardAchievement db c u key ca d sidOpt).2 = false →
      (awardAchievement db c u key ca d sidOpt).1 = db ∧
      (awardAchievement db c u key ca d sidOpt).1.achievementEvents = db.achievementEvents ∧
      (awardAchievement db c u key ca d sidOpt).1.achievementStats = db.achievementStats) := by
  refine ⟨?_, ?_, ?_⟩
  · intro h
    simp only [checkIn] at h ⊢
    by_cases hb : (db.sessions.any fun s =>
        sessionKeyClash s ⟨db.nextSessionId, c, u, some (businessDayKey ts 4), ts, none⟩) = true
    · simp only [if_pos hb]
    · simp only [if_neg hb] at h
      simp at h
  · intro h
    simp only [setDailyEarliest] at h ⊢
    by_cases hb : (db.dailyEarliest.any fun r => r.chatId == c && r.day == day) = true
    · simp only [if_pos hb]
    · simp only [if_neg hb] at h
      simp at h
  · intro h
    simp only [awardAchievement] at h ⊢
    by_cases hb : (db.achievementEvents.any fun e =>
        aeClash e ⟨db.nextEventId, c, u, key, d, sidOpt, ca⟩) = true
    · simp only [if_pos hb]
      exact ⟨trivial, trivial, trivial⟩
    · simp only [if_neg hb] at h
      simp at h

/-! ## Claim C1: at most one session per (chat, user, business day) -/

/-- A session row for the given (chat, user, business-day) triple exists. -/
def hasSessionFor (db : DB) (chatId userId : Int) (day : String) : Prop :=
  ∃ s ∈ db.sessions, s.chatId = chatId ∧ s.userId = userId ∧ s.sessionDay = some day

instance (db : DB) (c u : Int) (day : String) : Decidable (hasSessionFor db c u day) := by
  unfold hasSessionFor; infer_instance

/-- C1: `check_in` inserts one session keyed by
`(chat, user, business_day(ts))` and returns `false` with no state change
exactly when a session for that triple already exists — the uniqueness
index is the sole detection mechanism — and the uniqueness invariant (at
most one session per triple) is preserved, so it holds in every reachable
state. -/
theorem claim1_checkin_uniqueness (db : DB) (c u : Int) (ts : DateTime)
    (h : db.Inv) :
    ((checkIn db c u ts).2 = false ↔ hasSessionFor db c u (businessDayKey ts 4)) ∧
    ((checkIn db c u ts).2 = false → (checkIn db c u ts).1 = db) ∧
    (checkIn db c u ts).1.Inv ∧
    ((checkIn db c u ts).2 = true →
      (checkIn db c u ts).1.sessions =
        db.sessions ++ [⟨db.nextSessionId, c, u, some (businessDayKey ts 4), ts, none⟩]) := by
  have hany : (db.sessions.any fun s =>
      sessionKeyClash s ⟨db.nextSessionId, c, u, some (businessDayKey ts 4), ts, none⟩) = true ↔
      hasSessionFor db c u (businessDayKey ts 4) := by
    rw [List.any_eq_true]
    unfold hasSessionFor
    constructor
    · rintro ⟨s, hm, hs⟩
      have hs2 := of_decide_eq_true hs
      exact ⟨s, hm, hs2.1, hs2.2.1, hs2.2.2.1⟩
    · rintro ⟨s, hm, h1, h2, h3⟩
      exact ⟨s, hm, decide_eq_true ⟨h1, h2, h3, by rw [h3]; rfl⟩⟩
  obtain ⟨hu, hc, hsw, hsid, hde, hst, hae, haid, has⟩ := h
  unfold checkIn
  by_cases hdup : (db.sessions.any fun s =>
      sessionKeyClash s ⟨db.nextSessionId, c, u, some (businessDayKey ts 4), ts, none⟩) = true
  · rw [if_pos hdup]
    refine ⟨by simpa using hany.mp hdup, fun _ => rfl,
      ⟨hu, hc, hsw, hsid, hde, hst, hae, haid, has⟩, by simp⟩
  · rw [if_neg hdup]
    have hnodup : ∀ s ∈ db.sessions,
        ¬ sessionKeyClash s ⟨db.nextSessionId, c, u, some (businessDayKey ts 4), ts, none⟩ := by
      intro s hm hcl
      exact hdup (List.any_eq_true.mpr ⟨s, hm, decide_eq_true hcl⟩)
    refine ⟨by simp only [hany] at hdup ⊢; simpa using hdup, by simp, ?_, fun _ => rfl⟩
    refine ⟨hu, hc, ?_, ?_, hde, hst, hae, haid, has⟩
    · rw [List.pairwise_append]
      refine ⟨hsw, List.pairwise_singleton _ _, ?_⟩
      intro a ha b hb
      rw [List.mem_singleton] at hb
      subst hb
      refine ⟨fun hid => ?_, hnodup a ha⟩
      have := hsid a ha
      dsimp only at hid
      omega
    · intro s hm
      dsimp only
      rw [List.mem_append, List.mem_singleton] at hm
      rcases hm with hm | hm
      · have := hsid s hm
        omega
      · subst hm
        dsimp only
        omega

/-! ## Claim C7: streak update semantics -/

def dbEmpty : DB := ⟨[], [], [], [], [], [], [], 1, 1⟩

def tE : DateTime := ⟨⟨2025, 1, 6⟩, 8, 0, 0⟩

/-- C7: `update_streak` inserts a count of 1 when no row exists for the
triple; otherwise it returns the previous count plus one exactly when the
new day is one calendar day after the stored `last_day`, and resets to 1 in
every other case (gap of zero, gap greater than one, or a non-parseable
day).  Three consecutive days therefore yield streak 3, and a missed day
resets the next streak to 1. -/
theorem claim7_update_streak (db : DB) (c u : Int) (k day lastDayQ : String)
    (ca : DateTime) :
    (lookupStreak db c u k = none →
      updateStreak db c u k day ca =
        ({ db with streaks := db.streaks ++ [⟨c, u, k, day, 1, ca⟩] }, 1)) ∧
    (∀ row, lookupStreak db c u k = some row →
      (updateStreak db c u k day ca).2 =
        (if streakGapIsOne day row.lastDay then row.streak + 1 else 1)) ∧
    (streakGapIsOne day lastDayQ = true ↔
      ∃ dd ld, parseIsoDate day = some dd ∧ parseIsoDate lastDayQ = some ld ∧
        (dd.toOrdinal : Int) = (ld.toOrdinal : Int) + 1) ∧
    ((updateStreak dbEmpty 1 2 "earliest" "2025-01-01" tE).2 = 1 ∧
      (updateStreak (updateStreak dbEmpty 1 2 "earliest" "2025-01-01" tE).1
        1 2 "earliest" "2025-01-02" tE).2 = 2 ∧
      (updateStreak (updateStreak (updateStreak dbEmpty 1 2 "earliest" "2025-01-01" tE).1
        1 2 "earliest" "2025-01-02" tE).1 1 2 "earliest" "2025-01-03" tE).2 = 3 ∧
      (updateStreak (updateStreak (updateStreak (updateStreak dbEmpty
        1 2 "earliest" "2025-01-01" tE).1 1 2 "earliest" "2025-01-02" tE).1
        1 2 "earliest" "2025-01-03" tE).1 1 2 "earliest" "2025-01-05" tE).2 = 1) := by
  refine ⟨?_, ?_, ?_, by decide⟩
  · intro hnone
    unfold updateStreak
    rw [hnone]
  · intro row hrow
    unfold updateStreak
    rw [hrow]
  · unfold streakGapIsOne
    match hd : parseIsoDate day, hl : parseIsoDate lastDayQ with
    | some dd, some ld =>
      simp only [beq_iff_eq]
      constructor
      · intro h
        exact ⟨dd, ld, rfl, rfl, by omega⟩
      · rintro ⟨dd2, ld2, h1, h2, h3⟩
        cases h1
        cases h2
        omega
    | some dd, none =>
      simp
    | none, some ld =>
      simp
    | none, none =>
      simp

/-! ## Concrete states used by witnesses -/

def uAlice : UserRow := ⟨1, some "alice", none, none, tE⟩

def uBob : UserRow := ⟨2, none, some "Bob", some "B", tE⟩

def chRoom : ChatRow := ⟨10, some "room", "group", tE⟩

/-- A state already holding user 1's session for business day 2025-01-06
in chat 10. -/
def dbDup : DB :=
  ⟨[uAlice, uBob], [chRoom], [⟨1, 10, 1, some "2025-01-06", tE, none⟩], [], [], [], [], 2, 1⟩

/-- A state holding one streak row for (1, 2, "earliest"). -/
def dbStreak : DB :=
  ⟨[uAlice, uBob], [chRoom], [], [], [⟨1, 2, "earliest", "2025-01-05", 3, tE⟩], [], [], 1, 1⟩

theorem claim1_witness :
    dbDup.Inv ∧
    ((checkIn dbDup 10 1 tE).2 = false ↔ hasSessionFor dbDup 10 1 (businessDayKey tE 4)) :=
  ⟨by decide, (claim1_checkin_uniqueness dbDup 10 1 tE (by decide)).1⟩

theorem claim4_witness :
    (checkIn dbDup 10 1 tE).2 = false ∧ (checkIn dbDup 10 1 tE).1 = dbDup :=
  ⟨by decide, (claim4_conflict_rollback dbDup 10 1 tE "2025-01-06" 1 tE tE
    "daily_earliest" none none).1 (by decide)⟩

theorem claim7_witness :
    (updateStreak dbStreak 1 2 "earliest" "2025-01-06" tE).2 =
      (if streakGapIsOne "2025-01-06" "2025-01-05" then (3 : Int) + 1 else 1) :=
  (claim7_update_streak dbStreak 1 2 "earliest" "2025-01-06" "2025-01-05" tE).2.1
    ⟨1, 2, "earliest", "2025-01-05", 3, tE⟩ rfl

/-! ## Claim C2: check-out semantics -/

lemma openSessFilter_some_iff (c u : Int) (day : String) (t : SessionRow) :
    openSessFilter c u (some day) t = true ↔
      t.chatId = c ∧ t.userId = u ∧ t.checkOut = none ∧ t.sessionDay = some day := by
  unfold openSessFilter
  simp
  tauto

/-- The check-out instant actually written: `max(ts, check_in)`. -/
def clampToCheckIn (ts ci : DateTime) : DateTime :=
  if ts.toSec < ci.toSec then ci else ts

/-- The `UPDATE sessions SET check_out=:co WHERE id=:id` row transformation. -/
def withCheckOut (l : List SessionRow) (sid : Nat) (tsC : DateTime) : List SessionRow :=
  l.map (fun t => if t.id == sid then { t with checkOut := some tsC } else t)

lemma getOpenSession_none (db : DB) (c u : Int) (day : String)
    (hno : ∀ s ∈ db.sessions, s.chatId = c → s.userId = u → s.checkOut = none →
      s.sessionDay ≠ some day) :
    getOpenSession db c u (some day) = none := by
  have hfil : db.sessions.filter (openSessFilter c u (some day)) = [] := by
    rw [List.filter_eq_nil_iff]
    intro t ht hmatch
    obtain ⟨h1, h2, h3, h4⟩ := (openSessFilter_some_iff c u day t).mp hmatch
    exact hno t ht h1 h2 h3 h4
  unfold getOpenSession
  rw [hfil]
  rfl

lemma getOpenSession_mem (db : DB) (c u : Int) (day : String) (h : db.Inv)
    (s : SessionRow) (hs : s ∈ db.sessions) (h1 : s.chatId = c) (h2 : s.userId = u)
    (h3 : s.checkOut = none) (h4 : s.sessionDay = some day) :
    getOpenSession db c u (some day) = some ⟨s.id, s.checkIn⟩ := by
  have hmem : s ∈ db.sessions.filter (openSessFilter c u (some day)) :=
    List.mem_filter.mpr ⟨hs, (openSessFilter_some_iff c u day s).mpr ⟨h1, h2, h3, h4⟩⟩
  have hsingle : db.sessions.filter (openSessFilter c u (some day)) = [s] := by
    refine filter_eq_singleton h.2.2.1 _ hmem ?_
    intro a ha b hb hR
    obtain ⟨ha1, ha2, _, ha4⟩ := (openSessFilter_some_iff c u day a).mp (List.mem_filter.mp ha).2
    obtain ⟨hb1, hb2, _, hb4⟩ := (openSessFilter_some_iff c u day b).mp (List.mem_filter.mp hb).2
    exact hR.2 ⟨ha1.trans hb1.symm, ha2.trans hb2.symm, ha4.trans hb4.symm, by rw [ha4]; rfl⟩
  unfold getOpenSession
  rw [hsingle]
  rfl

/-- C2: when an open session of the current business day exists, `check_out`
sets its check-out to `max(ts, check_in)` and succeeds with duration
`check_out - check_in ≥ 0`; when no open session matches the current
business day (including when only stale open sessions of other business
days exist), it fails and changes nothing. -/
theorem claim2_checkout (db : DB) (c u : Int) (ts : DateTime) (h : db.Inv) :
    ((∀ s ∈ db.sessions, s.chatId = c → s.userId = u → s.checkOut = none →
        s.sessionDay ≠ some (businessDayKey ts 4)) →
      checkOut db c u ts = (db, (false, none, none, none))) ∧
    (∀ s ∈ db.sessions, s.chatId = c → s.userId = u → s.checkOut = none →
      s.sessionDay = some (businessDayKey ts 4) →
      checkOut db c u ts =
        ({ db with sessions := withCheckOut db.sessions s.id (clampToCheckIn ts s.checkIn) },
          (true,
            some (((clampToCheckIn ts s.checkIn).toSec : Int) - (s.checkIn.toSec : Int)),
            some s.checkIn, some s.id)) ∧
      0 ≤ ((clampToCheckIn ts s.checkIn).toSec : Int) - (s.checkIn.toSec : Int)) := by
  constructor
  · intro hno
    have hnone := getOpenSession_none db c u (businessDayKey ts 4) hno
    simp only [checkOut, hnone]
  · intro s hs h1 h2 h3 h4
    have hsome := getOpenSession_mem db c u (businessDayKey ts 4) h s hs h1 h2 h3 h4
    constructor
    · simp only [checkOut, hsome, withCheckOut, clampToCheckIn]
    · unfold clampToCheckIn
      by_cases hlt : ts.toSec < s.checkIn.toSec
      · rw [if_pos hlt]
        omega
      · rw [if_neg hlt]
        omega

theorem claim2_witness :
    dbDup.Inv ∧
    checkOut dbDup 10 1 ⟨⟨2025, 1, 6⟩, 16, 0, 0⟩ =
      ({ dbDup with
          sessions := withCheckOut dbDup.sessions 1
            (clampToCheckIn ⟨⟨2025, 1, 6⟩, 16, 0, 0⟩ tE) },
        (true,
          some (((clampToCheckIn ⟨⟨2025, 1, 6⟩, 16, 0, 0⟩ tE).toSec : Int) - (tE.toSec : Int)),
          some tE, some 1)) :=
  ⟨by decide,
    ((claim2_checkout dbDup 10 1 ⟨⟨2025, 1, 6⟩, 16, 0, 0⟩ (by decide)).2
      ⟨1, 10, 1, some "2025-01-06", tE, none⟩ (by decide) rfl rfl rfl (by decide)).1⟩

/-! ## Claim C9: check-in rank -/

/-- A session strictly ahead of `(ci, sid)` in the (check_in ASC, id ASC)
order within `(chat, day)`. -/
def strictlyBefore (c : Int) (day : String) (ci : DateTime) (sid : Nat) (t : SessionRow) : Bool :=
  t.chatId == c && t.sessionDay == some day &&
    (decide (t.checkIn.toSec < ci.toSec) || (t.checkIn == ci && decide (t.id < sid)))

/-- C9: for every session recorded in a `(chat, day)`, the position query
returns one plus the number of sessions of the same `(chat, day)` with a
strictly earlier check-in, or an equal check-in and a lower id. -/
theorem claim9_checkin_position (db : DB) (c : Int) (day : String) (s : SessionRow)
    (h : db.Inv) (hs : s ∈ db.sessions) (h1 : s.chatId = c) (h4 : s.sessionDay = some day) :
    todayCheckinPosition db c s.id s.checkIn day =
      1 + (db.sessions.countP (strictlyBefore c day s.checkIn s.id) : Int) := by
  have hpq : ∀ t, strictlyBefore c day s.checkIn s.id t = true →
      (t.chatId == c && t.sessionDay == some day &&
        (decide (t.checkIn.toSec < s.checkIn.toSec) ||
          (t.checkIn == s.checkIn && decide (t.id ≤ s.id)))) = true := by
    intro t ht
    simp only [strictlyBefore, Bool.and_eq_true, Bool.or_eq_true, decide_eq_true_eq,
      beq_iff_eq] at ht ⊢
    obtain ⟨hAB, hC⟩ := ht
    refine ⟨hAB, ?_⟩
    rcases hC with hC | ⟨hD, hE⟩
    · exact Or.inl hC
    · exact Or.inr ⟨hD, by omega⟩
  have hid : ∀ t : SessionRow,
      ((t.chatId == c && t.sessionDay == some day &&
        (decide (t.checkIn.toSec < s.checkIn.toSec) ||
          (t.checkIn == s.checkIn && decide (t.id ≤ s.id)))) &&
        !(strictlyBefore c day s.checkIn s.id t)) = true →
      t.id = s.id := by
    intro t ht
    simp only [strictlyBefore, Bool.and_eq_true, Bool.or_eq_true, Bool.not_eq_true',
      Bool.and_eq_false_iff, Bool.or_eq_false_iff, decide_eq_true_eq, decide_eq_false_iff_not,
      beq_iff_eq, beq_eq_false_iff_ne] at ht
    obtain ⟨⟨⟨hA, hB⟩, hC⟩, hneg⟩ := ht
    rcases hneg with hneg | ⟨hnC, hnD⟩
    · rcases hneg with hneg | hneg
      · exact absurd hA hneg
      · exact absurd hB hneg
    · rcases hC with hC | ⟨hD, hE⟩
      · exact absurd hC hnC
      · rcases hnD with hnD | hnD
        · exact absurd hD hnD
        · omega
  have hself : ((s.chatId == c && s.sessionDay == some day &&
      (decide (s.checkIn.toSec < s.checkIn.toSec) ||
        (s.checkIn == s.checkIn && decide (s.id ≤ s.id)))) &&
      !(strictlyBefore c day s.checkIn s.id s)) = true := by
    simp [strictlyBefore, h1, h4]
  have hone : db.sessions.countP
      (fun t => (t.chatId == c && t.sessionDay == some day &&
        (decide (t.checkIn.toSec < s.checkIn.toSec) ||
          (t.checkIn == s.checkIn && decide (t.id ≤ s.id)))) &&
        !(strictlyBefore c day s.checkIn s.id t)) = 1 := by
    rw [List.countP_eq_length_filter]
    have hfil := filter_eq_singleton h.2.2.1
      (fun t => (t.chatId == c && t.sessionDay == some day &&
        (decide (t.checkIn.toSec < s.checkIn.toSec) ||
          (t.checkIn == s.checkIn && decide (t.id ≤ s.id)))) &&
        !(strictlyBefore c day s.checkIn s.id t))
      (List.mem_filter.mpr ⟨hs, hself⟩)
      (fun a ha b hb hR => hR.1 ((hid a (List.mem_filter.mp ha).2).trans
        (hid b (List.mem_filter.mp hb).2).symm))
    rw [hfil]
    rfl
  have hsplit := countP_split
    (fun t => t.chatId == c && t.sessionDay == some day &&
      (decide (t.checkIn.toSec < s.checkIn.toSec) ||
        (t.checkIn == s.checkIn && decide (t.id ≤ s.id))))
    (strictlyBefore c day s.checkIn s.id) db.sessions hpq
  rw [hone] at hsplit
  unfold todayCheckinPosition
  rw [hsplit]
  dsimp only
  split
  · push_cast
    omega
  · rename_i hcond
    exfalso
    apply hcond
    push_cast
    omega

theorem claim9_witness :
    dbDup.Inv ∧
    todayCheckinPosition dbDup 10 1 tE "2025-01-06" =
      1 + (dbDup.sessions.countP (strictlyBefore 10 "2025-01-06" tE 1) : Int) :=
  ⟨by decide, claim9_checkin_position dbDup 10 "2025-01-06"
    ⟨1, 10, 1, some "2025-01-06", tE, none⟩ (by decide) (by decide) rfl rfl⟩

/-! ## Claim C6: check-out achievement triggers -/

lemma awardAchievement_no_clash (db : DB) (c u : Int) (key : String) (ca : DateTime)
    (d : Option String) (sidO : Option Nat)
    (hno : ∀ e ∈ db.achievementEvents, ¬ aeClash e ⟨db.nextEventId, c, u, key, d, sidO, ca⟩) :
    (awardAchievement db c u key ca d sidO).2 = true ∧
    (awardAchievement db c u key ca d sidO).1.achievementEvents =
      db.achievementEvents ++ [⟨db.nextEventId, c, u, key, d, sidO, ca⟩] := by
  have hb : (db.achievementEvents.any fun e =>
      aeClash e ⟨db.nextEventId, c, u, key, d, sidO, ca⟩) = false := by
    rw [Bool.eq_false_iff]
    intro hany
    obtain ⟨e, he, hcl⟩ := List.any_eq_true.mp hany
    exact hno e he (of_decide_eq_true hcl)
  simp only [awardAchievement, hb]
  exact ⟨rfl, rfl⟩

/-- C6: `on_check_out` derives weekday-ness from the business day of the
check-in timestamp; for a user who has not yet earned `ontime_8h` in the
chat and a session not yet awarded, `ontime_8h` unlocks exactly for a
weekday duration within 60 seconds of 8 hours (the `[7h59m, 8h1m]`
window), and `longday_12h` unlocks exactly for a weekday duration
exceeding 12 hours; neither fires on Saturday or Sunday. -/
theorem claim6_checkout_achievements (db : DB) (c u : Int) (sid : Nat)
    (ci : DateTime) (dur : Int) (nw : DateTime)
    (hstat : getAchievementCount db c u "ontime_8h" ≤ 0)
    (hev : ∀ e ∈ db.achievementEvents,
      ¬ (e.chatId = c ∧ e.userId = u ∧ e.sessionId = some sid ∧
         (e.key = "ontime_8h" ∨ e.key = "longday_12h"))) :
    ("ontime_8h" ∈ (onCheckOut db c u sid ci dur nw).2.unlocked ↔
      isWeekdayOf (businessDayKey ci 4) = true ∧ (dur - 28800).natAbs ≤ 60) ∧
    ("longday_12h" ∈ (onCheckOut db c u sid ci dur nw).2.unlocked ↔
      isWeekdayOf (businessDayKey ci 4) = true ∧ dur > 43200) ∧
    ((dur - 28800).natAbs ≤ 60 ↔ 28740 ≤ dur ∧ dur ≤ 28860) ∧
    (∀ d, parseIsoDate (businessDayKey ci 4) = some d →
      (isWeekdayOf (businessDayKey ci 4) = true ↔ d.weekday ≤ 4)) := by
  have hwindow : (dur - 28800).natAbs ≤ 60 ↔ 28740 ≤ dur ∧ dur ≤ 28860 := by omega
  have hwd : ∀ d, parseIsoDate (businessDayKey ci 4) = some d →
      (isWeekdayOf (businessDayKey ci 4) = true ↔ d.weekday ≤ 4) := by
    intro d hd
    unfold isWeekdayOf
    rw [hd]
    simp
  have hnoOn : ∀ e ∈ db.achievementEvents,
      ¬ aeClash e ⟨db.nextEventId, c, u, "ontime_8h",
        some (businessDayKey ci 4), some sid, nw⟩ := by
    intro e he hcl
    rcases hcl with ⟨_, hk2, _⟩ | ⟨_, hk2, _⟩ | ⟨_, hk, h1, h2, h3, _⟩
    · dsimp only at hk2
      exact absurd hk2 (by decide)
    · dsimp only at hk2
      exact absurd hk2 (by decide)
    · dsimp only at hk h1 h2 h3
      exact hev e he ⟨h1, h2, h3, Or.inl hk⟩
  unfold onCheckOut
  by_cases hW : isWeekdayOf (businessDayKey ci 4) = true
  · by_cases h8 : (dur - 28800).natAbs ≤ 60
    · have hA : (isWeekdayOf (businessDayKey ci 4) &&
          decide ((dur - 28800).natAbs ≤ 60)) = true := by
        rw [hW, decide_eq_true h8]
        rfl
      obtain ⟨haw1, hev1⟩ := awardAchievement_no_clash db c u "ontime_8h" nw
        (some (businessDayKey ci 4)) (some sid) hnoOn
      set db1 := (awardAchievement db c u "ontime_8h" nw
        (some (businessDayKey ci 4)) (some sid)).1 with hdb1
      have hnoLong : ∀ e ∈ db1.achievementEvents,
          ¬ aeClash e ⟨db1.nextEventId, c, u, "longday_12h",
            some (businessDayKey ci 4), some sid, nw⟩ := by
        intro e he hcl
        rw [hev1, List.mem_append, List.mem_singleton] at he
        rcases hcl with ⟨_, hk2, _⟩ | ⟨_, hk2, _⟩ | ⟨_, hk, h1, h2, h3, _⟩
        · dsimp only at hk2
          exact absurd hk2 (by decide)
        · dsimp only at hk2
          exact absurd hk2 (by decide)
        · dsimp only at hk h1 h2 h3
          rcases he with he | he
          · exact hev e he ⟨h1, h2, h3, Or.inr hk⟩
          · subst he
            dsimp only at hk
            exact absurd hk (by decide)
      obtain ⟨haw2, _⟩ := awardAchievement_no_clash db1 c u "longday_12h" nw
        (some (businessDayKey ci 4)) (some sid) hnoLong
      by_cases h12 : dur > 43200
      · have hB : (isWeekdayOf (businessDayKey ci 4) && decide (dur > 43200)) = true := by
          rw [hW, decide_eq_true h12]
          rfl
        simp only [hA, if_true, if_pos hstat, haw1, if_true, ← hdb1, hB, haw2]
        refine ⟨?_, ?_, hwindow, hwd⟩ <;> simp [hW, h8, h12]
      · have hB : (isWeekdayOf (businessDayKey ci 4) && decide (dur > 43200)) = false := by
          rw [decide_eq_false h12]
          exact Bool.and_false _
        simp only [hA, if_true, if_pos hstat, haw1, if_true, ← hdb1, hB, Bool.false_eq_true,
          if_false]
        refine ⟨?_, ?_, hwindow, hwd⟩ <;> simp [hW, h8, h12]
    · have hA : (isWeekdayOf (businessDayKey ci 4) &&
          decide ((dur - 28800).natAbs ≤ 60)) = false := by
        rw [decide_eq_false h8]
        exact Bool.and_false _
      by_cases h12 : dur > 43200
      · have hB : (isWeekdayOf (businessDayKey ci 4) && decide (dur > 43200)) = true := by
          rw [hW, decide_eq_true h12]
          rfl
        obtain ⟨haw2, _⟩ := awardAchievement_no_clash db c u "longday_12h" nw
          (some (businessDayKey ci 4)) (some sid)
          (by
            intro e he hcl
            rcases hcl with ⟨_, hk2, _⟩ | ⟨_, hk2, _⟩ | ⟨_, hk, h1, h2, h3, _⟩
            · dsimp only at hk2
              exact absurd hk2 (by decide)
            · dsimp only at hk2
              exact absurd hk2 (by decide)
            · dsimp only at hk h1 h2 h3
              exact hev e he ⟨h1, h2, h3, Or.inr hk⟩)
        simp only [hA, Bool.false_eq_true, if_false, hB, if_true, haw2]
        refine ⟨?_, ?_, hwindow, hwd⟩ <;> simp [hW, h8, h12]
      · have hB : (isWeekdayOf (businessDayKey ci 4) && decide (dur > 43200)) = false := by
          rw [decide_eq_false h12]
          exact Bool.and_false _
        simp only [hA, hB, Bool.false_eq_true, if_false]
        refine ⟨?_, ?_, hwindow, hwd⟩ <;> simp [hW, h8, h12]
  · have hWf : isWeekdayOf (businessDayKey ci 4) = false := by
      rw [Bool.eq_false_iff]
      exact hW
    have hA : (isWeekdayOf (businessDayKey ci 4) &&
        decide ((dur - 28800).natAbs ≤ 60)) = false := by
      rw [hWf]
      rfl
    have hB : (isWeekdayOf (businessDayKey ci 4) && decide (dur > 43200)) = false := by
      rw [hWf]
      rfl
    simp only [hA, hB, Bool.false_eq_true, if_false]
    refine ⟨?_, ?_, hwindow, hwd⟩ <;> simp [hWf]

theorem claim6_witness :
    getAchievementCount dbDup 10 1 "ontime_8h" ≤ 0 ∧
    ("ontime_8h" ∈ (onCheckOut dbDup 10 1 1 tE 28800 tE).2.unlocked ↔
      isWeekdayOf (businessDayKey tE 4) = true ∧ ((28800 : Int) - 28800).natAbs ≤ 60) :=
  ⟨by decide,
    (claim6_checkout_achievements dbDup 10 1 1 tE 28800 tE (by decide) (by decide)).1⟩

/-! ## Claim C5: daily-earliest winner and streak-7 unlock -/

/-- A `daily_earliest` row for `(chat, day)` already exists. -/
def hasDailyEarliest (db : DB) (c : Int) (day : String) : Prop :=
  ∃ r ∈ db.dailyEarliest, r.chatId = c ∧ r.day = day

instance (db : DB) (c : Int) (day : String) : Decidable (hasDailyEarliest db c day) := by
  unfold hasDailyEarliest; infer_instance

lemma setDailyEarliest_any_iff (db : DB) (c : Int) (day : String) :
    (db.dailyEarliest.any fun r => r.chatId == c && r.day == day) = true ↔
      hasDailyEarliest db c day := by
  rw [List.any_eq_true]
  unfold hasDailyEarliest
  constructor
  · rintro ⟨r, hm, hr⟩
    simp only [Bool.and_eq_true, beq_iff_eq] at hr
    exact ⟨r, hm, hr⟩
  · rintro ⟨r, hm, h1, h2⟩
    exact ⟨r, hm, by simp [h1, h2]⟩

lemma setDailyEarliest_spec (db : DB) (c : Int) (day : String) (u : Int) (sid : Nat)
    (ci ca : DateTime) :
    ((setDailyEarliest db c day u sid ci ca).2 = true ↔ ¬ hasDailyEarliest db c day) ∧
    ((setDailyEarliest db c day u sid ci ca).2 = false →
      (setDailyEarliest db c day u sid ci ca).1 = db) ∧
    ((setDailyEarliest db c day u sid ci ca).2 = true →
      (setDailyEarliest db c day u sid ci ca).1.dailyEarliest =
        db.dailyEarliest ++ [⟨c, day, u, sid, ci, ca⟩]) ∧
    (setDailyEarliest db c day u sid ci ca).1.streaks = db.streaks ∧
    (setDailyEarliest db c day u sid ci ca).1.achievementEvents = db.achievementEvents := by
  by_cases hb : (db.dailyEarliest.any fun r => r.chatId == c && r.day == day) = true
  · simp only [setDailyEarliest, if_pos hb]
    refine ⟨?_, fun _ => trivial, fun hx => absurd hx (by decide), trivial, trivial⟩
    simp only [(setDailyEarliest_any_iff db c day).mp hb]
    simp
  · simp only [setDailyEarliest, if_neg hb]
    refine ⟨?_, fun hx => absurd hx (by decide), fun _ => trivial, trivial, trivial⟩
    have := (not_congr (setDailyEarliest_any_iff db c day)).mp hb
    simp only [this]
    simp

lemma awardAchievement_aux_state (db : DB) (c u : Int) (key : String) (ca : DateTime)
    (d : Option String) (sidO : Option Nat) :
    (awardAchievement db c u key ca d sidO).1.streaks = db.streaks ∧
    (awardAchievement db c u key ca d sidO).1.dailyEarliest = db.dailyEarliest ∧
    ((awardAchievement db c u key ca d sidO).1.achievementEvents = db.achievementEvents ∨
      (awardAchievement db c u key ca d sidO).1.achievementEvents =
        db.achievementEvents ++ [⟨db.nextEventId, c, u, key, d, sidO, ca⟩]) := by
  by_cases hb : (db.achievementEvents.any fun e =>
      aeClash e ⟨db.nextEventId, c, u, key, d, sidO, ca⟩) = true
  · simp only [awardAchievement, if_pos hb]
    exact ⟨trivial, trivial, Or.inl trivial⟩
  · simp only [awardAchievement, if_neg hb]
    exact ⟨trivial, trivial, Or.inr trivial⟩

lemma updateStreak_aux_state (db : DB) (c u : Int) (k day : String) (ca : DateTime) :
    (updateStreak db c u k day ca).1.achievementEvents = db.achievementEvents ∧
    (updateStreak db c u k day ca).1.nextEventId = db.nextEventId := by
  unfold updateStreak lookupStreak
  cases hl : db.streaks.find? (fun r => r.chatId == c && r.userId == u && r.key == k) with
  | some row => exact ⟨rfl, rfl⟩
  | none => exact ⟨rfl, rfl⟩

lemma updateStreak_snd_congr (db db2 : DB) (c u : Int) (k day : String) (ca : DateTime)
    (h : db2.streaks = db.streaks) :
    (updateStreak db2 c u k day ca).2 = (updateStreak db c u k day ca).2 := by
  unfold updateStreak lookupStreak
  rw [h]
  cases hl : db.streaks.find? (fun r => r.chatId == c && r.userId == u && r.key == k) with
  | some row => rfl
  | none => rfl

lemma onCheckIn_lose (db : DB) (c u : Int) (sid : Nat) (ci nw : DateTime)
    (hl : hasDailyEarliest db c (businessDayKey ci 4)) :
    onCheckIn db c u sid ci nw = (db, ⟨[], none⟩) := by
  have hspec := setDailyEarliest_spec db c (businessDayKey ci 4) u sid ci nw
  have hf : (setDailyEarliest db c (businessDayKey ci 4) u sid ci nw).2 = false := by
    cases hsnd : (setDailyEarliest db c (businessDayKey ci 4) u sid ci nw).2 with
    | true => exact absurd hl (hspec.1.mp hsnd)
    | false => rfl
  have hst := hspec.2.1 hf
  simp only [onCheckIn, hf, Bool.false_eq_true, if_false, hst]

/-- C5: the `DailyEarliest` insert can be won by exactly one user per
`(chat, day)` — after any attempt every retry returns `false` and changes
nothing; a losing `on_check_in` awards nothing and updates no streak;
the winner's `earliest` streak is updated, the winner is awarded
`daily_earliest` (when the ledger dedup admits it), and
`streak_earliest_7` is unlocked only when the resulting streak is a
positive multiple of 7, and is unlocked whenever it is and the ledger
dedup admits it. -/
theorem claim5_daily_earliest_race (db : DB) (c u : Int) (sid : Nat) (ci nw : DateTime) :
    ((setDailyEarliest db c (businessDayKey ci 4) u sid ci nw).2 = true ↔
      ¬ hasDailyEarliest db c (businessDayKey ci 4)) ∧
    (∀ u2 sid2 ci2 ca2,
      (setDailyEarliest (setDailyEarliest db c (businessDayKey ci 4) u sid ci nw).1
        c (businessDayKey ci 4) u2 sid2 ci2 ca2).2 = false ∧
      (setDailyEarliest (setDailyEarliest db c (businessDayKey ci 4) u sid ci nw).1
        c (businessDayKey ci 4) u2 sid2 ci2 ca2).1 =
        (setDailyEarliest db c (businessDayKey ci 4) u sid ci nw).1) ∧
    (hasDailyEarliest db c (businessDayKey ci 4) →
      onCheckIn db c u sid ci nw = (db, ⟨[], none⟩)) ∧
    (¬ hasDailyEarliest db c (businessDayKey ci 4) →
      (onCheckIn db c u sid ci nw).2.earliestStreak =
        some ((updateStreak db c u "earliest" (businessDayKey ci 4) nw).2)) ∧
    (¬ hasDailyEarliest db c (businessDayKey ci 4) →
      (∀ e ∈ db.achievementEvents,
        ¬(e.key = "daily_earliest" ∧ e.chatId = c ∧ e.day = some (businessDayKey ci 4))) →
      "daily_earliest" ∈ (onCheckIn db c u sid ci nw).2.unlocked) ∧
    ("streak_earliest_7" ∈ (onCheckIn db c u sid ci nw).2.unlocked →
      ∃ k, (onCheckIn db c u sid ci nw).2.earliestStreak = some k ∧ 0 < k ∧ k % 7 = 0) ∧
    (¬ hasDailyEarliest db c (businessDayKey ci 4) →
      0 < (updateStreak db c u "earliest" (businessDayKey ci 4) nw).2 →
      (updateStreak db c u "earliest" (businessDayKey ci 4) nw).2 % 7 = 0 →
      (∀ e ∈ db.achievementEvents,
        ¬(e.key = "streak_earliest_7" ∧ e.chatId = c ∧ e.userId = u ∧
          e.day = some (businessDayKey ci 4))) →
      "streak_earliest_7" ∈ (onCheckIn db c u sid ci nw).2.unlocked) := by
  have hspec := setDailyEarliest_spec db c (businessDayKey ci 4) u sid ci nw
  have hsecond : ∀ u2 sid2 ci2 ca2,
      (setDailyEarliest (setDailyEarliest db c (businessDayKey ci 4) u sid ci nw).1
        c (businessDayKey ci 4) u2 sid2 ci2 ca2).2 = false ∧
      (setDailyEarliest (setDailyEarliest db c (businessDayKey ci 4) u sid ci nw).1
        c (businessDayKey ci 4) u2 sid2 ci2 ca2).1 =
        (setDailyEarliest db c (businessDayKey ci 4) u sid ci nw).1 := by
    intro u2 sid2 ci2 ca2
    have hhas : hasDailyEarliest (setDailyEarliest db c (businessDayKey ci 4) u sid ci nw).1
        c (businessDayKey ci 4) := by
      cases hsnd : (setDailyEarliest db c (businessDayKey ci 4) u sid ci nw).2 with
      | true =>
        refine ⟨⟨c, businessDayKey ci 4, u, sid, ci, nw⟩, ?_, rfl, rfl⟩
        rw [hspec.2.2.1 hsnd]
        exact List.mem_append_right _ (List.mem_singleton.mpr rfl)
      | false =>
        rw [hspec.2.1 hsnd]
        by_contra hno
        exact absurd (hspec.1.mpr hno) (by rw [hsnd]; decide)
    have hspec2 := setDailyEarliest_spec
      (setDailyEarliest db c (businessDayKey ci 4) u sid ci nw).1
      c (businessDayKey ci 4) u2 sid2 ci2 ca2
    have hf2 : (setDailyEarliest (setDailyEarliest db c (businessDayKey ci 4) u sid ci nw).1
        c (businessDayKey ci 4) u2 sid2 ci2 ca2).2 = false := by
      cases hsnd : (setDailyEarliest (setDailyEarliest db c (businessDayKey ci 4) u sid ci nw).1
          c (businessDayKey ci 4) u2 sid2 ci2 ca2).2 with
      | true => exact absurd hhas (hspec2.1.mp hsnd)
      | false => rfl
    exact ⟨hf2, hspec2.2.1 hf2⟩
  refine ⟨hspec.1, hsecond, onCheckIn_lose db c u sid ci nw, ?_, ?_, ?_, ?_⟩
  · intro hno
    have hw : (setDailyEarliest db c (businessDayKey ci 4) u sid ci nw).2 = true :=
      hspec.1.mpr hno
    have hstreq : (updateStreak
        (awardAchievement (setDailyEarliest db c (businessDayKey ci 4) u sid ci nw).1
          c u "daily_earliest" nw (some (businessDayKey ci 4)) none).1
        c u "earliest" (businessDayKey ci 4) nw).2 =
        (updateStreak db c u "earliest" (businessDayKey ci 4) nw).2 :=
      updateStreak_snd_congr _ _ _ _ _ _ _
        (((awardAchievement_aux_state _ c u "daily_earliest" nw
          (some (businessDayKey ci 4)) none).1).trans hspec.2.2.2.1)
    simp only [onCheckIn, hw, if_true]
    split
    · simpa using hstreq
    · simpa using hstreq
  · intro hno hdE
    have hw : (setDailyEarliest db c (businessDayKey ci 4) u sid ci nw).2 = true :=
      hspec.1.mpr hno
    have haw1 := (awardAchievement_no_clash
      (setDailyEarliest db c (businessDayKey ci 4) u sid ci nw).1
      c u "daily_earliest" nw (some (businessDayKey ci 4)) none
      (by
        intro e he hcl
        rw [hspec.2.2.2.2] at he
        rcases hcl with ⟨hk1, _, h1, h2, _⟩ | ⟨_, hk2, _⟩ | ⟨hks, hk, _⟩
        · dsimp only at h1 h2
          exact hdE e he ⟨hk1, h1, h2⟩
        · dsimp only at hk2
          exact absurd hk2 (by decide)
        · dsimp only at hk
          rcases hks with hek | hek <;> rw [hek] at hk <;> exact absurd hk (by decide))).1
    simp only [onCheckIn, hw, if_true, haw1, if_true]
    split
    · simp
    · simp
  · intro hmem
    by_cases hwin : (setDailyEarliest db c (businessDayKey ci 4) u sid ci nw).2 = true
    · simp only [onCheckIn, hwin, if_true] at hmem ⊢
      split at hmem
      · rename_i h7
        simp only [Bool.and_eq_true, decide_eq_true_eq, beq_iff_eq] at h7
        refine ⟨_, ?_, h7.1, h7.2⟩
        split
        · rfl
        · rename_i h7x
          exact absurd (by simp [h7.1, h7.2]) h7x
      · exfalso
        revert hmem
        split
        · intro hx
          dsimp only at hx
          exact absurd hx (by decide)
        · intro hx
          dsimp only at hx
          exact absurd hx (by decide)
    · have hf : (setDailyEarliest db c (businessDayKey ci 4) u sid ci nw).2 = false :=
        Bool.eq_false_iff.mpr hwin
      have hl : hasDailyEarliest db c (businessDayKey ci 4) := by
        by_contra hno
        exact hwin (hspec.1.mpr hno)
      rw [onCheckIn_lose db c u sid ci nw hl] at hmem
      simp at hmem
  · intro hno hpos hmod hs7
    have hw : (setDailyEarliest db c (businessDayKey ci 4) u sid ci nw).2 = true :=
      hspec.1.mpr hno
    have hstreq : (updateStreak
        (awardAchievement (setDailyEarliest db c (businessDayKey ci 4) u sid ci nw).1
          c u "daily_earliest" nw (some (businessDayKey ci 4)) none).1
        c u "earliest" (businessDayKey ci 4) nw).2 =
        (updateStreak db c u "earliest" (businessDayKey ci 4) nw).2 :=
      updateStreak_snd_congr _ _ _ _ _ _ _
        (((awardAchievement_aux_state _ c u "daily_earliest" nw
          (some (businessDayKey ci 4)) none).1).trans hspec.2.2.2.1)
    have h7 : ((decide ((updateStreak
        (awardAchievement (setDailyEarliest db c (businessDayKey ci 4) u sid ci nw).1
          c u "daily_earliest" nw (some (businessDayKey ci 4)) none).1
        c u "earliest" (businessDayKey ci 4) nw).2 > 0)) &&
        ((updateStreak
          (awardAchievement (setDailyEarliest db c (businessDayKey ci 4) u sid ci nw).1
            c u "daily_earliest" nw (some (businessDayKey ci 4)) none).1
          c u "earliest" (businessDayKey ci 4) nw).2 % 7 == 0)) = true := by
      rw [hstreq]
      simp only [Bool.and_eq_true, decide_eq_true_eq, beq_iff_eq]
      exact ⟨hpos, hmod⟩
    have hevents3 : ∀ e ∈ (updateStreak
        (awardAchievement (setDailyEarliest db c (businessDayKey ci 4) u sid ci nw).1
          c u "daily_earliest" nw (some (businessDayKey ci 4)) none).1
        c u "earliest" (businessDayKey ci 4) nw).1.achievementEvents,
        e.key = "daily_earliest" ∨ e ∈ db.achievementEvents := by
      intro e he
      rw [(updateStreak_aux_state _ c u "earliest" (businessDayKey ci 4) nw).1] at he
      rcases (awardAchievement_aux_state
          (setDailyEarliest db c (businessDayKey ci 4) u sid ci nw).1
          c u "daily_earliest" nw (some (businessDayKey ci 4)) none).2.2 with hev | hev
      · rw [hev, hspec.2.2.2.2] at he
        exact Or.inr he
      · rw [hev, hspec.2.2.2.2] at he
        rcases List.mem_append.mp he with hm | hm
        · exact Or.inr hm
        · rw [List.mem_singleton.mp hm]
          exact Or.inl rfl
    have haw2 := (awardAchievement_no_clash
      (updateStreak
        (awardAchievement (setDailyEarliest db c (businessDayKey ci 4) u sid ci nw).1
          c u "daily_earliest" nw (some (businessDayKey ci 4)) none).1
        c u "earliest" (businessDayKey ci 4) nw).1
      c u "streak_earliest_7" nw (some (businessDayKey ci 4)) none
      (by
        intro e he hcl
        rcases hevents3 e he with hk0 | hmemdb
        · rcases hcl with ⟨_, hk2, _⟩ | ⟨hk1, _, _⟩ | ⟨hks, _, _⟩
          · dsimp only at hk2
            exact absurd hk2 (by decide)
          · rw [hk0] at hk1
            exact absurd hk1 (by decide)
          · rcases hks with hek | hek <;> rw [hk0] at hek <;> exact absurd hek (by decide)
        · rcases hcl with ⟨_, hk2, _⟩ | ⟨hk1, _, h1, h2, h3, _⟩ | ⟨hks, hk, _⟩
          · dsimp only at hk2
            exact absurd hk2 (by decide)
          · dsimp only at h1 h2 h3
            exact hs7 e hmemdb ⟨hk1, h1, h2, h3⟩
          · dsimp only at hk
            rcases hks with hek | hek <;> rw [hek] at hk <;> exact absurd hk (by decide))).1
    simp only [onCheckIn, hw, if_true, h7, if_true, haw2]
    split <;> simp

theorem claim5_witness :
    ¬ hasDailyEarliest dbDup 10 (businessDayKey tE 4) ∧
    "daily_earliest" ∈ (onCheckIn dbDup 10 1 1 tE tE).2.unlocked :=
  ⟨by decide,
    (claim5_daily_earliest_race dbDup 10 1 1 tE tE).2.2.2.2.1 (by decide) (by decide)⟩

/-! ## Claim C8: leaderboard modes -/

lemma leaderboardRows_all_completed (db : DB) (c : Int) (now : DateTime) :
    leaderboardRows { db with sessions := db.sessions.filter (fun s => s.checkOut.isSome) }
        c "all" now = leaderboardRows db c "all" now := by
  have hm : (("all" : String) == "today") = false := by decide
  unfold leaderboardRows lookupUser
  simp only [hm, Bool.false_eq_true, if_false]
  rw [List.filter_filter, List.filter_filter, List.filter_filter]
  refine List.filter_congr ?_
  intro a _
  cases h1 : a.checkOut.isSome <;>
    cases h2 : (a.chatId == c && (db.users.find? (fun u => u.userId == a.userId)).isSome) <;>
    simp [h1, h2]

lemma leaderboardRows_today_mem (db : DB) (c : Int) (now : DateTime) (t : SessionRow)
    (ht : t ∈ leaderboardRows db c "today" now) :
    t ∈ db.sessions ∧ t.chatId = c ∧ t.sessionDay = some (businessDayKey now 4) := by
  have hm : (("today" : String) == "today") = true := by decide
  unfold leaderboardRows lookupUser at ht
  simp only [hm, if_true] at ht
  obtain ⟨ht1, ht2⟩ := List.mem_filter.mp ht
  obtain ⟨ht3, ht4⟩ := List.mem_filter.mp ht1
  simp only [Bool.and_eq_true, beq_iff_eq] at ht4 ht2
  exact ⟨ht3, ht4.1, ht2⟩

/-- C8: leaderboard results are sorted descending by seconds; `all` mode is
insensitive to open sessions (it sums completed sessions only); `today`
mode credits a currently open session of the current business day with the
elapsed time up to `now`. -/
theorem claim8_leaderboard_modes (db : DB) (c : Int) (m : String) (now : DateTime)
    (h : db.Inv) :
    (leaderboard db c m now).Sorted lbRel ∧
    leaderboard { db with sessions := db.sessions.filter (fun s => s.checkOut.isSome) }
        c "all" now = leaderboard db c "all" now ∧
    (∀ s ∈ db.sessions, s.chatId = c → s.checkOut = none →
      s.sessionDay = some (businessDayKey now 4) → (lookupUser db s.userId).isSome = true →
      (s.userId, userDisplay db sqliteName s.userId,
        (now.toSec : Int) - (s.checkIn.toSec : Int)) ∈ leaderboard db c "today" now) := by
  refine ⟨List.sorted_insertionSort lbRel _, ?_, ?_⟩
  · unfold leaderboard
    rw [leaderboardRows_all_completed db c now]
    rfl
  · intro s hs h1 h3 h4 hj
    have hm : (("today" : String) == "today") = true := by decide
    have hsrow : s ∈ leaderboardRows db c "today" now := by
      unfold leaderboardRows lookupUser
      simp only [hm, if_true]
      refine List.mem_filter.mpr ⟨List.mem_filter.mpr ⟨hs, ?_⟩, ?_⟩
      · simp only [Bool.and_eq_true, beq_iff_eq]
        exact ⟨h1, hj⟩
      · simp only [beq_iff_eq]
        exact h4
    have hpw : (leaderboardRows db c "today" now).Pairwise
        (fun a b => a.id ≠ b.id ∧ ¬ sessionKeyClash a b) := by
      have hm2 : (("today" : String) == "today") = true := by decide
      refine h.2.2.1.sublist ?_
      unfold leaderboardRows
      simp only [hm2, if_true]
      exact (List.filter_sublist _).trans (List.filter_sublist _)
    have hsingle : (leaderboardRows db c "today" now).filter
        (fun t => t.userId == s.userId) = [s] := by
      refine filter_eq_singleton hpw _
        (List.mem_filter.mpr ⟨hsrow, by simp⟩) ?_
      intro a ha b hb hR
      obtain ⟨hamem, hau⟩ := List.mem_filter.mp ha
      obtain ⟨hbmem, hbu⟩ := List.mem_filter.mp hb
      obtain ⟨_, ha1, ha2⟩ := leaderboardRows_today_mem db c now a hamem
      obtain ⟨_, hb1, hb2⟩ := leaderboardRows_today_mem db c now b hbmem
      simp only [beq_iff_eq] at hau hbu
      exact hR.2 ⟨ha1.trans hb1.symm, hau.trans hbu.symm, ha2.trans hb2.symm,
        by rw [ha2]; rfl⟩
    have hentry : (s.userId, userDisplay db sqliteName s.userId,
        (now.toSec : Int) - (s.checkIn.toSec : Int)) ∈
        (dedupKeep ((leaderboardRows db c "today" now).map (·.userId))).map
          (fun uid =>
            (uid, userDisplay db sqliteName uid,
              (((leaderboardRows db c "today" now).filter
                (fun t => t.userId == uid)).map (sessionSeconds now)).sum)) := by
      refine List.mem_map.mpr ⟨s.userId, ?_, ?_⟩
      · exact (mem_dedupKeep _ _).mpr (List.mem_map.mpr ⟨s, hsrow, rfl⟩)
      · rw [hsingle]
        simp [sessionSeconds, h3]
    unfold leaderboard
    exact ((List.perm_insertionSort lbRel _).mem_iff).mpr hentry

theorem claim8_witness :
    dbDup.Inv ∧
    ((1 : Int), userDisplay dbDup sqliteName 1,
      ((DateTime.mk ⟨2025, 1, 6⟩ 16 0 0).toSec : Int) - (tE.toSec : Int)) ∈
      leaderboard dbDup 10 "today" ⟨⟨2025, 1, 6⟩, 16, 0, 0⟩ :=
  ⟨by decide,
    (claim8_leaderboard_modes dbDup 10 "today" ⟨⟨2025, 1, 6⟩, 16, 0, 0⟩ (by decide)).2.2
      ⟨1, 10, 1, some "2025-01-06", tE, none⟩ (by decide) rfl rfl (by decide) (by decide)⟩

/-! ## Claim C10: the two engine branches of the global streak ranking -/

/-- A state with one streak row, on which the two engines disagree:
the embedded branch returns no chat, the networked branch returns the
best chat's id and title. -/
def dbEngines : DB :=
  ⟨[uAlice], [chRoom], [], [], [⟨10, 1, "earliest", "2025-01-05", 3, tE⟩], [], [], 1, 1⟩

/-- C10 counterexample: the same logical state yields different
`streak_rank_global` results on the two engines. -/
theorem claim10_counterexample :
    streakRankGlobalSqlite dbEngines "earliest" 20 ≠
      streakRankGlobalPg dbEngines "earliest" 20 := by
  decide

lemma rankRel_proj (a b : Int × String × Int × Option Int × Option String)
    (a2 b2 : Int × String × Int × Option Int × Option String)
    (ha : rankProj a = rankProj a2) (hb : rankProj b = rankProj b2) :
    rankRel a b ↔ rankRel a2 b2 := by
  unfold rankRel
  rw [ha, hb]

lemma orderedInsert_map_rankProj (x1 x2 : Int × String × Int × Option Int × Option String)
    (l1 l2 : List (Int × String × Int × Option Int × Option String))
    (hx : rankProj x1 = rankProj x2) (hl : l1.map rankProj = l2.map rankProj) :
    (l1.orderedInsert rankRel x1).map rankProj =
      (l2.orderedInsert rankRel x2).map rankProj := by
  induction l1 generalizing l2 with
  | nil =>
    have h2 : l2 = [] := List.map_eq_nil_iff.mp hl.symm
    subst h2
    simp [hx]
  | cons a t1 ih =>
    cases l2 with
    | nil => simp at hl
    | cons b t2 =>
      simp only [List.map_cons, List.cons.injEq] at hl
      obtain ⟨hab, ht⟩ := hl
      simp only [List.orderedInsert]
      by_cases hr : rankRel x1 a
      · rw [if_pos hr, if_pos ((rankRel_proj x1 a x2 b hx hab).mp hr)]
        simp only [List.map_cons, hx, hab, ht]
      · rw [if_neg hr, if_neg (fun h2 => hr ((rankRel_proj x1 a x2 b hx hab).mpr h2))]
        simp only [List.map_cons, hab]
        rw [ih t2 ht]

lemma insertionSort_map_rankProj
    (l1 l2 : List (Int × String × Int × Option Int × Option String))
    (hl : l1.map rankProj = l2.map rankProj) :
    (l1.insertionSort rankRel).map rankProj =
      (l2.insertionSort rankRel).map rankProj := by
  induction l1 generalizing l2 with
  | nil =>
    have h2 : l2 = [] := List.map_eq_nil_iff.mp hl.symm
    subst h2
    rfl
  | cons a t1 ih =>
    cases l2 with
    | nil => simp at hl
    | cons b t2 =>
      simp only [List.map_cons, List.cons.injEq] at hl
      obtain ⟨hab, ht⟩ := hl
      simp only [List.insertionSort]
      exact orderedInsert_map_rankProj a b _ _ hab (ih t2 ht)

lemma bestStreakRow_streak_eq_max (x : StreakRow) (xs : List StreakRow) :
    (xs.foldl
      (fun b r =>
        if r.streak > b.streak || (r.streak == b.streak && r.chatId < b.chatId) then r else b)
      x).streak = xs.foldl (fun m r => max m r.streak) x.streak := by
  induction xs generalizing x with
  | nil => rfl
  | cons y ys ih =>
    simp only [List.foldl_cons]
    rw [ih]
    congr 1
    by_cases hc : (decide (y.streak > x.streak) ||
        (y.streak == x.streak && decide (y.chatId < x.chatId))) = true
    · rw [if_pos hc]
      simp only [Bool.or_eq_true, Bool.and_eq_true, decide_eq_true_eq, beq_iff_eq] at hc
      rcases hc with hc | ⟨hc, _⟩ <;> omega
    · rw [if_neg hc]
      simp only [Bool.or_eq_true, Bool.and_eq_true, decide_eq_true_eq, beq_iff_eq] at hc
      push_neg at hc
      omega

/-- C10 amended: the two branches agree on each user's best streak value
and on the ranking order (user id and streak of every entry, in order);
only the chat columns differ. -/
theorem claim10_amended_streak_rank (db : DB) (key : String) (lim : Nat) :
    (streakRankGlobalSqlite db key lim).map rankProj =
      (streakRankGlobalPg db key lim).map rankProj := by
  unfold streakRankGlobalSqlite streakRankGlobalPg
  rw [List.map_take, List.map_take]
  congr 1
  apply insertionSort_map_rankProj
  rw [List.map_map, List.map_map]
  refine List.map_congr_left ?_
  intro uid _
  simp only [Function.comp]
  cases hrows : streakRowsOf db key uid with
  | nil =>
    simp [bestStreakRow, intListMax, rankProj, hrows]
  | cons x xs =>
    simp only [bestStreakRow, intListMax, hrows, List.map_cons, rankProj]
    rw [List.foldl_map]
    rw [bestStreakRow_streak_eq_max]
    rfl

end ZaoBot
